import Mathlib

/-!
Shallow embedding of the dictionary CLI (src/main.rs): the lexical-entry
data model, the audio-candidate resolver (URL dedup, per-URL download with
scratch-file naming, join-all, filter/pick selection), and the top-level
control flow of `main`. Network and filesystem effects are abstracted by an
environment function giving each URL's download outcome.
-/

/-- Rust struct `Phonetic`: optional phonetic text and an audio URL. -/
structure Phonetic where
  text : Option String
  audio : String
deriving DecidableEq

/-- Rust struct `Definition`: definition text, synonyms, antonyms. -/
structure Definition where
  definition : String
  synonyms : List String
  antonyms : List String
deriving DecidableEq

/-- Rust struct `Meaning`: part of speech and definitions. -/
structure Meaning where
  part_of_speech : String
  definitions : List Definition
deriving DecidableEq

/-- Rust struct `Word`: the lexical entry (word, phonetics, meanings). -/
structure Word where
  word : String
  phonetics : List Phonetic
  meanings : List Meaning
deriving DecidableEq

/-- Rust enum `DownloadError`: a reqwest (network) or io failure. -/
inductive DownloadError where
  | ReqwestError
  | IoError
deriving DecidableEq

deriving instance DecidableEq for Except

/-- Semantics of Rust `str::split` with the one-character pattern `sep`,
over the character list of the string: splitting always yields at least one
(possibly empty) segment, and adjacent separators yield empty segments. -/
def rustSplit (sep : Char) : List Char → List (List Char)
  | [] => [[]]
  | c :: cs =>
    if c = sep then [] :: rustSplit sep cs
    else
      match rustSplit sep cs with
      | [] => [[c]]
      | s :: ss => (c :: s) :: ss

/-- The `/` character, the split pattern of the scratch-file-name
derivation. -/
def slash : Char := Char.ofNat 47

/-- Rust `url.split("/").last()`: the last segment of the URL, `none` when
the iterator is empty (which `download_audio_file` turns into a panic via
`expect`). -/
def lastSegment (url : String) : Option (List Char) :=
  (rustSplit slash url.toList).getLast?

/-- The scratch file name derived from a URL: the segment after the last
slash (total version of `lastSegment`, defaulting to the empty name). -/
def file_name (url : String) : List Char :=
  (rustSplit slash url.toList).getLastD []

/-- The download outcome environment: for each URL, either a
`DownloadError` (file creation, network request, or streaming failed for
that URL) or success. -/
def DlEnv : Type := String → Except DownloadError Unit

/-- Rust `download_audio_file`: derives the scratch file name from the URL
(`none` models the `expect` panic when no segment exists), and under the
environment either fails with that URL's `DownloadError` or returns the
pair (file name, scratch file path `temp_dir/file_name`). -/
def download_audio_file (env : DlEnv) (temp_dir : List Char) (url : String) :
    Option (Except DownloadError (List Char × List Char)) :=
  match (rustSplit slash url.toList).getLast? with
  | none => none
  | some fn =>
    some (match env url with
      | Except.error e => Except.error e
      | Except.ok _ => Except.ok (fn, temp_dir ++ slash :: fn))

/-- Rust `words.iter().flat_map(phonetics).map(audio).collect::<HashSet>()`:
the distinct audio URLs of all phonetic variants. The `HashSet` is modelled
as a duplicate-free list in a fixed iteration order. -/
def all_audio_url (words : List Word) : List String :=
  ((words.flatMap (fun w => w.phonetics)).map (fun p => p.audio)).dedup

/-- Rust `futures::future::join_all`: runs every download and collects all
results in order; `none` models the enclosing task dying because one
download panicked (proved unreachable below). -/
def join_downloads (env : DlEnv) (temp_dir : List Char) :
    List String → Option (List (Except DownloadError (List Char × List Char)))
  | [] => some []
  | u :: us =>
    match download_audio_file env temp_dir u, join_downloads env temp_dir us with
    | some r, some rs => some (r :: rs)
    | _, _ => none

/-- The successful candidates whose file name ends with `us.mp3`, in order:
Rust `.filter(is_ok).map(unwrap).filter(ends_with "us.mp3")`. -/
def matching_candidates
    (results : List (Except DownloadError (List Char × List Char))) :
    List (List Char × List Char) :=
  (results.filterMap Except.toOption).filter
    (fun p => List.isSuffixOf "us.mp3".toList p.1)

/-- The selection step of the resolver: Rust
`.filter(is_ok).map(unwrap).filter(ends_with "us.mp3").next()`. -/
def select_audio
    (results : List (Except DownloadError (List Char × List Char))) :
    Option (List Char × List Char) :=
  (matching_candidates results).head?

/-- The audio-candidate resolver: download every URL concurrently, join,
then select. Outer `none` models a panic in the spawned task; the inner
option is "no candidate" versus the winning (file name, path) pair. -/
def resolver (env : DlEnv) (temp_dir : List Char) (urls : List String) :
    Option (Option (List Char × List Char)) :=
  (join_downloads env temp_dir urls).map select_audio

/-- Error of the dictionary query (`reqwest::Error` in `main`): the remote
call failed or the JSON body did not decode. -/
inductive DictError where
  | NetworkError
  | DecodeError
deriving DecidableEq

/-- Rust function `main` (renamed, since Lean reserves that name) after argument parsing: the dictionary query either fails
fatally (the two `?` operators return the error from `main`) or yields the
entries, which are rendered and, concurrently, fed through the audio
resolver. The returned pair is (rendered page, audio-task outcome). -/
def main_flow (render : List Word → String) (query : Except DictError (List Word))
    (env : DlEnv) (temp_dir : List Char) :
    Except DictError (String × Option (Option (List Char × List Char))) :=
  match query with
  | Except.error e => Except.error e
  | Except.ok words =>
      Except.ok (render words, resolver env temp_dir (all_audio_url words))

/-- Bool test: the URL downloaded successfully under `env` and its name
carries the `us.mp3` suffix. -/
def succMatch (env : DlEnv) (u : String) : Bool :=
  (match env u with | Except.ok _ => true | Except.error _ => false)
    && List.isSuffixOf "us.mp3".toList u.toList


/-- The download outcome `download_audio_file` yields for a URL under the
environment, with the panic case removed (it is proved unreachable below):
the per-URL `DownloadError`, or the (file name, scratch path) pair. -/
def dlOutcome (env : DlEnv) (temp_dir : List Char) (u : String) :
    Except DownloadError (List Char × List Char) :=
  match env u with
  | Except.error e => Except.error e
  | Except.ok _ => Except.ok (file_name u, temp_dir ++ slash :: file_name u)

/-- Example environment: every download succeeds. -/
def envOk : DlEnv := fun _ => Except.ok ()

/-- Example environment: the download of `https://x/a.mp3` fails with a
network error; every other download succeeds. -/
def envA : DlEnv := fun u =>
  if u = "https://x/a.mp3" then Except.error DownloadError.ReqwestError
  else Except.ok ()

/-- Example URL set: a failing locator followed by two successful locators
that both carry the `us.mp3` suffix. -/
def urlsA : List String :=
  ["https://x/a.mp3", "https://x/c-us.mp3", "https://x/b-us.mp3"]

/-- The lexical entries of the end-to-end "hello" scenario: one entry with
a `uk` and a `us` audio locator. -/
def hello_words : List Word :=
  [{ word := "hello",
     phonetics := [{ text := none, audio := "https://x/hello-uk.mp3" },
                   { text := none, audio := "https://x/hello-us.mp3" }],
     meanings := [] }]

/-! ### Structural facts about `rustSplit` -/

/-- Splitting always yields at least one segment (Rust `split` is never an
empty iterator). -/
lemma rustSplit_ne_nil (sep : Char) (l : List Char) : rustSplit sep l ≠ [] := by
  induction l with
  | nil => simp [rustSplit]
  | cons c cs ih =>
    by_cases h : c = sep
    · simp [rustSplit, h]
    · simp only [rustSplit, if_neg h]
      cases hs : rustSplit sep cs with
      | nil => simp
      | cons s ss => simp

/-- If the split has a single segment, that segment is the whole input. -/
lemma rustSplit_singleton (sep : Char) :
    ∀ {l s : List Char}, rustSplit sep l = [s] → s = l := by
  intro l
  induction l with
  | nil =>
    intro s h
    simp [rustSplit] at h
    exact h
  | cons c cs ih =>
    intro s h
    by_cases hc : c = sep
    · rw [rustSplit, if_pos hc] at h
      exact absurd (List.cons.inj h).2.symm (Ne.symm (rustSplit_ne_nil sep cs))
    · rw [rustSplit, if_neg hc] at h
      cases hr : rustSplit sep cs with
      | nil => exact absurd hr (rustSplit_ne_nil sep cs)
      | cons s2 ss2 =>
        rw [hr] at h
        obtain ⟨h1, h2⟩ := List.cons.inj h
        have hs2 : s2 = cs := by
          apply ih
          rw [hr, h2]
        rw [← h1, hs2]

/-- A separator-free input splits into itself as the single segment. -/
lemma rustSplit_of_not_mem (sep : Char) :
    ∀ {l : List Char}, sep ∉ l → rustSplit sep l = [l] := by
  intro l
  induction l with
  | nil => intro _; rfl
  | cons c cs ih =>
    intro h
    have hc : ¬ c = sep := fun hcs => h (hcs ▸ List.mem_cons_self c cs)
    have hcs : sep ∉ cs := fun hm => h (List.mem_cons_of_mem c hm)
    rw [rustSplit, if_neg hc, ih hcs]

/-- A separator-free suffix survives taking the last segment of the split:
it is a suffix of the last segment exactly when it is a suffix of the whole
input. This is the heart of "filter on the derived file name = filter on
the locator". -/
lemma suffix_getLastD_rustSplit (sep : Char) {S : List Char} (hS : sep ∉ S) :
    ∀ l : List Char, S <:+ (rustSplit sep l).getLastD [] ↔ S <:+ l := by
  intro l
  induction l with
  | nil => simp [rustSplit]
  | cons c cs ih =>
    by_cases hc : c = sep
    · rw [rustSplit, if_pos hc, List.getLastD_cons]
      constructor
      · intro h
        exact (ih.mp h).trans (List.suffix_cons c cs)
      · intro h
        rcases List.suffix_cons_iff.mp h with heq | hsuf
        · exact absurd (heq ▸ List.mem_cons_self c cs) (hc ▸ hS)
        · exact ih.mpr hsuf
    · rw [rustSplit, if_neg hc]
      cases hr : rustSplit sep cs with
      | nil => exact absurd hr (rustSplit_ne_nil sep cs)
      | cons s ss =>
        cases hss : ss with
        | nil =>
          subst hss
          have hs : s = cs := rustSplit_singleton sep hr
          simp only [List.getLastD_cons, List.getLastD_nil, hs]
        | cons t ts =>
          subst hss
          have hmem : sep ∈ cs := by
            by_contra hnm
            rw [rustSplit_of_not_mem sep hnm] at hr
            simp at hr
          have ih2 := ih
          rw [hr] at ih2
          simp only [List.getLastD_cons] at ih2
          simp only [List.getLastD_cons]
          rw [ih2]
          constructor
          · intro h
            exact h.trans (List.suffix_cons c cs)
          · intro h
            rcases List.suffix_cons_iff.mp h with heq | hsuf
            · exact absurd (heq ▸ List.mem_cons_of_mem c hmem) hS
            · exact hsuf

/-! ### The download and selection pipeline, characterised -/

/-- The last segment of a split URL always exists and is `file_name`. -/
lemma getLast?_rustSplit (url : String) :
    (rustSplit slash url.toList).getLast? = some (file_name url) := by
  unfold file_name
  cases h : (rustSplit slash url.toList).getLast? with
  | none => exact absurd (List.getLast?_eq_none_iff.mp h) (rustSplit_ne_nil slash url.toList)
  | some a => rw [List.getLastD_eq_getLast?, h]; rfl

/-- The derived scratch file name carries the `us.mp3` suffix exactly when
the URL itself does. -/
lemma isSuffixOf_file_name (url : String) :
    List.isSuffixOf "us.mp3".toList (file_name url)
      = List.isSuffixOf "us.mp3".toList url.toList := by
  have hS : slash ∉ "us.mp3".toList := by decide
  rw [Bool.eq_iff_iff, List.isSuffixOf_iff_suffix, List.isSuffixOf_iff_suffix]
  exact suffix_getLastD_rustSplit slash hS url.toList

/-- `download_audio_file` never panics: it returns exactly `dlOutcome`. -/
lemma download_audio_file_eq (env : DlEnv) (td : List Char) (u : String) :
    download_audio_file env td u = some (dlOutcome env td u) := by
  rw [download_audio_file, getLast?_rustSplit]
  cases h : env u <;> simp [dlOutcome, h]

/-- Joining all downloads never dies and collects each URL's outcome in
order. -/
lemma join_downloads_eq (env : DlEnv) (td : List Char) :
    ∀ urls : List String,
    join_downloads env td urls = some (urls.map (dlOutcome env td)) := by
  intro urls
  induction urls with
  | nil => rfl
  | cons u us ih => rw [join_downloads, download_audio_file_eq, ih]; rfl

/-- The resolver always completes and applies the selection step to the
per-URL outcomes. -/
lemma resolver_eq (env : DlEnv) (td : List Char) (urls : List String) :
    resolver env td urls = some (select_audio (urls.map (dlOutcome env td))) := by
  rw [resolver, join_downloads_eq]
  rfl

/-- `find?` only looks at the predicate on members of the list. -/
lemma find?_congr_of_mem {α : Type} {p q : α → Bool} :
    ∀ {l : List α}, (∀ a ∈ l, p a = q a) → l.find? p = l.find? q := by
  intro l
  induction l with
  | nil => intro _; rfl
  | cons a as ih =>
    intro h
    rw [List.find?_cons, List.find?_cons, h a (List.mem_cons_self a as),
      ih (fun b hb => h b (List.mem_cons_of_mem a hb))]

/-- The selection step over the per-URL outcomes picks the first URL, in
iteration order, whose download succeeded and whose name matches the
`us.mp3` suffix, and returns its (file name, scratch path) pair. -/
lemma select_audio_map_dlOutcome (env : DlEnv) (td : List Char) :
    ∀ urls : List String,
    select_audio (urls.map (dlOutcome env td)) =
      (urls.find? (succMatch env)).map
        (fun u => (file_name u, td ++ slash :: file_name u)) := by
  intro urls
  induction urls with
  | nil => rfl
  | cons u us ih =>
    simp only [List.map_cons, select_audio, matching_candidates] at ih ⊢
    cases h : env u with
    | error e =>
      have hd : dlOutcome env td u = Except.error e := by rw [dlOutcome, h]
      have hm : succMatch env u = false := by simp [succMatch, h]
      rw [hd, List.find?_cons, hm]
      simp only [List.filterMap_cons, Except.toOption]
      exact ih
    | ok v =>
      have hd : dlOutcome env td u
          = Except.ok (file_name u, td ++ slash :: file_name u) := by
        rw [dlOutcome, h]
      cases hb : List.isSuffixOf "us.mp3".toList u.toList with
      | false =>
        have hm : succMatch env u = false := by
          simp only [succMatch, h, Bool.true_and]
          exact hb
        have hfn : List.isSuffixOf "us.mp3".toList (file_name u) = false := by
          rw [isSuffixOf_file_name]; exact hb
        rw [hd, List.find?_cons, hm]
        simp only [List.filterMap_cons, Except.toOption, List.filter_cons, hfn]
        exact ih
      | true =>
        have hm : succMatch env u = true := by
          simp only [succMatch, h, Bool.true_and]
          exact hb
        have hfn : List.isSuffixOf "us.mp3".toList (file_name u) = true := by
          rw [isSuffixOf_file_name]; exact hb
        rw [hd, List.find?_cons, hm]
        simp only [List.filterMap_cons, Except.toOption, List.filter_cons, hfn]
        rfl

/-! ### The claims -/

/-- C1: for a fixed set of successfully downloaded candidates, selection is
deterministic: every run returns the same winner, namely the first URL in
the fixed iteration order whose locator ends with `us.mp3`. -/
theorem spec_selection_deterministic (env : DlEnv) (td : List Char)
    (urls : List String) (hok : ∀ u ∈ urls, env u = Except.ok ()) :
    resolver env td urls = resolver env td urls ∧
    resolver env td urls =
      some ((urls.find? (fun u => List.isSuffixOf "us.mp3".toList u.toList)).map
        (fun u => (file_name u, td ++ slash :: file_name u))) := by
  refine ⟨rfl, ?_⟩
  have hq := @find?_congr_of_mem String (succMatch env)
    (fun u => List.isSuffixOf "us.mp3".toList u.toList) urls
    (fun u hu => by simp only [succMatch, hok u hu, Bool.true_and])
  rw [resolver_eq, select_audio_map_dlOutcome, hq]

/-- C1 witness: both downloads of the "hello" URL pair succeed; the second
URL is the first (and only) one with the `us.mp3` suffix and wins. -/
theorem spec_selection_deterministic_witness :
    resolver envOk "/tmp".toList
        ["https://x/hello-uk.mp3", "https://x/hello-us.mp3"] =
      some (some ("hello-us.mp3".toList,
        "/tmp".toList ++ slash :: "hello-us.mp3".toList)) := by
  rw [(spec_selection_deterministic envOk "/tmp".toList
    ["https://x/hello-uk.mp3", "https://x/hello-us.mp3"]
    (fun u _ => rfl)).2]
  decide

/-- C2: on the "hello" entry with a `uk` and a `us` locator, both
downloading successfully, `main` renders the entries and the resolver picks
the `hello-us.mp3` candidate, not the `uk` one. -/
theorem spec_end_to_end_hello (render : List Word → String) :
    main_flow render (Except.ok hello_words) envOk "/tmp".toList =
      Except.ok (render hello_words,
        some (some ("hello-us.mp3".toList,
          "/tmp".toList ++ slash :: "hello-us.mp3".toList))) := by
  have h : resolver envOk "/tmp".toList (all_audio_url hello_words) =
      some (some ("hello-us.mp3".toList,
        "/tmp".toList ++ slash :: "hello-us.mp3".toList)) := by decide
  simp only [main_flow]
  rw [h]

/-- C3: the URLs handed to the download step are exactly the distinct audio
locators appearing in the entries' phonetics, with no duplicates. -/
theorem spec_dedup_distinct_locators (words : List Word) :
    (all_audio_url words).Nodup ∧
    ∀ u, u ∈ all_audio_url words ↔
      u ∈ (words.flatMap (fun w => w.phonetics)).map (fun p => p.audio) :=
  ⟨List.nodup_dedup _, fun _ => List.mem_dedup⟩

/-- C4 counterexample: with locators A = `https://x/a.mp3` (download
fails), C = `https://x/c-us.mp3` and B = `https://x/b-us.mp3` (both
succeed, both match the suffix), the resolver's winner is the C candidate,
not B — so "A fails, B succeeds and matches ⟹ B wins" is false for an
arbitrary locator set. -/
theorem spec_failure_isolation_counterexample :
    "https://x/a.mp3" ∈ urlsA ∧
    envA "https://x/a.mp3" = Except.error DownloadError.ReqwestError ∧
    "https://x/b-us.mp3" ∈ urlsA ∧
    envA "https://x/b-us.mp3" = Except.ok () ∧
    List.isSuffixOf "us.mp3".toList "https://x/b-us.mp3".toList = true ∧
    resolver envA "/tmp".toList urlsA ≠
      some (some (file_name "https://x/b-us.mp3",
        "/tmp".toList ++ slash :: file_name "https://x/b-us.mp3")) := by
  decide

/-- C4 (amended): if some locator's download fails while B downloads
successfully and matches the suffix, the failure never surfaces: the
resolver still completes and returns a winner; and whenever B is the first
successfully downloaded, suffix-matching locator in iteration order, that
winner is B's candidate. -/
theorem spec_failure_isolation (env : DlEnv) (td : List Char)
    (urls : List String) (A B : String) (eA : DownloadError)
    (hA : A ∈ urls) (hfail : env A = Except.error eA)
    (hB : B ∈ urls) (hBok : env B = Except.ok ())
    (hBsfx : List.isSuffixOf "us.mp3".toList B.toList = true) :
    (∃ w, resolver env td urls = some (some w)) ∧
    (urls.find? (succMatch env) = some B →
      resolver env td urls =
        some (some (file_name B, td ++ slash :: file_name B))) := by
  constructor
  · have hsome : (urls.find? (succMatch env)).isSome := by
      rw [List.find?_isSome]
      exact ⟨B, hB, by simp only [succMatch, hBok, Bool.true_and]; exact hBsfx⟩
    obtain ⟨u, hu⟩ := Option.isSome_iff_exists.mp hsome
    refine ⟨(file_name u, td ++ slash :: file_name u), ?_⟩
    rw [resolver_eq, select_audio_map_dlOutcome, hu]
    rfl
  · intro hfirst
    rw [resolver_eq, select_audio_map_dlOutcome, hfirst]
    rfl

/-- C4 witness: A fails, B succeeds and is the first suffix match, so the
resolver returns B's candidate and no error surfaces. -/
theorem spec_failure_isolation_witness :
    (∃ w, resolver envA "/tmp".toList ["https://x/a.mp3", "https://x/b-us.mp3"]
        = some (some w)) ∧
    (["https://x/a.mp3", "https://x/b-us.mp3"].find? (succMatch envA)
        = some "https://x/b-us.mp3" →
      resolver envA "/tmp".toList ["https://x/a.mp3", "https://x/b-us.mp3"] =
        some (some (file_name "https://x/b-us.mp3",
          "/tmp".toList ++ slash :: file_name "https://x/b-us.mp3"))) :=
  spec_failure_isolation envA "/tmp".toList
    ["https://x/a.mp3", "https://x/b-us.mp3"]
    "https://x/a.mp3" "https://x/b-us.mp3" DownloadError.ReqwestError
    (by decide) (by decide) (by decide) (by decide) (by decide)

/-- C5: if every successfully downloaded locator lacks the `us.mp3` suffix,
the resolver completes without failure and selects no candidate. -/
theorem spec_no_match_no_candidate (env : DlEnv) (td : List Char)
    (urls : List String)
    (h : ∀ u ∈ urls, env u = Except.ok () →
      List.isSuffixOf "us.mp3".toList u.toList = false) :
    resolver env td urls = some none := by
  rw [resolver_eq, select_audio_map_dlOutcome]
  have hnone : urls.find? (succMatch env) = none := by
    rw [List.find?_eq_none]
    intro u hu hsm
    rcases Bool.and_eq_true_iff.mp hsm with ⟨hok, hsfx⟩
    cases he : env u with
    | error e => rw [he] at hok; exact Bool.noConfusion hok
    | ok v =>
      cases v
      rw [h u hu he] at hsfx
      exact Bool.noConfusion hsfx
  rw [hnone]
  rfl

/-- C5 witness: the single candidate downloads successfully but carries the
`uk` suffix, so no candidate is selected. -/
theorem spec_no_match_no_candidate_witness :
    resolver envOk "/tmp".toList ["https://x/hello-uk.mp3"] = some none :=
  spec_no_match_no_candidate envOk "/tmp".toList ["https://x/hello-uk.mp3"]
    (fun u hu _ => by
      rw [List.mem_singleton.mp hu]
      decide)

/-- C6: with zero locators the resolver performs no download (the join is
over the empty collection) and returns "no candidate", not an error. -/
theorem spec_empty_input (env : DlEnv) (td : List Char) :
    resolver env td [] = some none ∧ join_downloads env td [] = some [] :=
  ⟨rfl, rfl⟩

/-- C7: a network or decode failure of the dictionary query is fatal:
`main` terminates reporting exactly that failure and neither the rendering
result nor any audio-resolution result is produced. -/
theorem spec_dict_error_fatal (render : List Word → String) (e : DictError)
    (env : DlEnv) (td : List Char) :
    main_flow render (Except.error e) env td = Except.error e := rfl

/-- C8: the resolver always completes, and its result holds at most one
winning candidate: none, or exactly one (file name, path) pair. -/
theorem spec_at_most_one_winner (env : DlEnv) (td : List Char)
    (urls : List String) :
    ∃ r, resolver env td urls = some r ∧ r.toList.length ≤ 1 := by
  refine ⟨select_audio (urls.map (dlOutcome env td)), resolver_eq env td urls, ?_⟩
  cases select_audio (urls.map (dlOutcome env td)) <;> simp

/-- C9: scratch-file-name derivation is total: splitting any URL string on
`/` yields at least one segment, so `last()` is always `some` and the
`expect` in `download_audio_file` is unreachable, the empty string
included. -/
theorem spec_file_name_total (url : String) :
    lastSegment url = some (file_name url) := by
  unfold lastSegment
  exact getLast?_rustSplit url

/-- C10: the derived scratch file name ends with `us.mp3` exactly when the
URL does, so the code's filter on the file name selects exactly the
candidates whose locator ends with the regional-accent suffix. -/
theorem spec_filter_matches_locator_suffix (url : String) :
    List.isSuffixOf "us.mp3".toList (file_name url)
      = List.isSuffixOf "us.mp3".toList url.toList :=
  isSuffixOf_file_name url
